import Mathlib

/-!
# generator-mobile: `app/index.js`

A shallow embedding of the Yeoman generator defined in `src/app/index.js`:
the state of the generator object (`this.checks`, `this.messages`, the log),
the `configuring` stage with its download callbacks and check-event
handlers, the `writing.packagejson` name sanitiser, the `writing.github`
and `install.git` steps, and the `end` summary.

Conventions of the embedding.

* JavaScript values the generator stores or prints are values of `JSVal`.
  The generator never looks inside a check payload (`res.data`); it only
  stores it.
* `this.checks` is a plain object (`{}`) used as a dictionary.  It is
  embedded with its own properties, in the order `Object.keys` lists them
  (array-index names first, in ascending order, then the other names in
  the order they were added), and with its prototype: an assignment to the
  name `__proto__` adds no own property but installs the assigned entry as
  the prototype, and a read that finds no own property goes on to the
  prototype and then to `Object.prototype`.
* A `failed` event carries an error object (`res.error`), whose `message`
  property is an arbitrary `JSVal` (`undefined` when the property is
  missing).
* `process.exit(1)` stops the process: nothing after it runs.
-/

namespace GeneratorMobile

/-! ## JavaScript values -/

/-- JavaScript values handled by the generator: primitives, and records with
string fields for payloads such as `{version: "2.40"}`. -/
inductive JSVal where
  | undefined
  | null
  | bool (b : Bool)
  | num (n : Int)
  | str (s : String)
  | obj (fields : List (String × String))
  deriving DecidableEq, Repr

/-- ToBoolean: the test made by `if (v)`, `v || w` and a `for` condition. -/
def JSVal.truthy : JSVal → Bool
  | .undefined => false
  | .null => false
  | .bool b => b
  | .num n => n != 0
  | .str s => s != ""
  | .obj _ => true

/-- ToString, as applied by `+` with a string operand. -/
def JSVal.toStr : JSVal → String
  | .undefined => "undefined"
  | .null => "null"
  | .bool true => "true"
  | .bool false => "false"
  | .num n => toString n
  | .str s => s
  | .obj _ => "[object Object]"

/-- The JavaScript `a || b`. -/
def JSVal.or (a b : JSVal) : JSVal := if a.truthy then a else b

/-- An error object; only its `message` property is read. -/
structure ErrorInfo where
  message : JSVal
  deriving DecidableEq, Repr

/-! ## The check report `this.checks` -/

/-- The object literal stored under a check name: `{data: res.data}` for a
passed check (`error = none`: the property is absent) and
`{data: res.data, error: res.error}` for a failed one. -/
structure Entry where
  data : JSVal
  error : Option ErrorInfo
  deriving DecidableEq, Repr

/-- What a read of a property of `this.checks` can return: an object literal
stored by a handler, a payload or `undefined` (`val JSVal.undefined`), an
error object, or the member `name` of `Object.prototype` (for `__proto__`
that member is `Object.prototype` itself). -/
inductive PropValue where
  | entry (e : Entry)
  | val (v : JSVal)
  | error (e : ErrorInfo)
  | builtin (name : String)
  deriving DecidableEq, Repr

/-- The object `this.checks`: its own properties in the order `Object.keys`
lists them, and the entry an assignment to `__proto__` installed as its
prototype (`none`: the prototype is still `Object.prototype`). -/
structure Checks where
  own : List (String × Entry)
  proto : Option Entry
  deriving DecidableEq, Repr

/-- The object literal `{}`. -/
def Checks.empty : Checks := { own := [], proto := none }

/-- The number a property name stands for when it is an array index: a
canonical decimal numeral (no sign, no leading zero) below `2^32 - 1`. -/
def arrayIndex? (name : String) : Option Nat :=
  let cs := name.data
  if cs ≠ [] ∧ cs.all Char.isDigit ∧ (cs.head? ≠ some '0' ∨ cs.length = 1) then
    let n := cs.foldl (fun acc c => 10 * acc + (c.toNat - 48)) 0
    if n < 4294967295 then some n else none
  else none

/-- The value of the own property `name`, if there is one. -/
def ownLookup : List (String × Entry) → String → Option Entry
  | [], _ => none
  | (k, v) :: rest, name => if k = name then some v else ownLookup rest name

/-- An existing own property gets a new value and keeps its place. -/
def ownReplace : List (String × Entry) → String → Entry → List (String × Entry)
  | [], _, _ => []
  | (k, v) :: rest, name, entry =>
    if k = name then (k, entry) :: rest else (k, v) :: ownReplace rest name entry

/-- A new own property whose name is the array index `n` goes after the
array indices below `n` and before everything else. -/
def ownInsertIndex : List (String × Entry) → Nat → String → Entry → List (String × Entry)
  | [], _, name, entry => [(name, entry)]
  | (k, v) :: rest, n, name, entry =>
    match arrayIndex? k with
    | some m =>
      if m < n then (k, v) :: ownInsertIndex rest n name entry
      else (name, entry) :: (k, v) :: rest
    | none => (name, entry) :: (k, v) :: rest

/-- The own property `name` of `this.checks`, if there is one. -/
def Checks.getOwn (c : Checks) (name : String) : Option Entry := ownLookup c.own name

/-- The property names of `Object.prototype`. -/
def objectPrototypeNames : List String :=
  ["constructor", "__defineGetter__", "__defineSetter__", "hasOwnProperty",
   "__lookupGetter__", "__lookupSetter__", "isPrototypeOf", "propertyIsEnumerable",
   "toString", "valueOf", "__proto__", "toLocaleString"]

/-- Property read `checks[name]`: the own property if there is one; otherwise
the property of the installed prototype entry (`data`, and `error` when it
has one; `__proto__` reads that entry itself), otherwise the member of
`Object.prototype`, otherwise `undefined`. -/
def Checks.get (c : Checks) (name : String) : PropValue :=
  match ownLookup c.own name with
  | some e => PropValue.entry e
  | none =>
    match c.proto with
    | some p =>
      if name = "data" then PropValue.val p.data
      else if name = "error" then
        match p.error with
        | some err => PropValue.error err
        | none => PropValue.val JSVal.undefined
      else if name = "__proto__" then PropValue.entry p
      else if name ∈ objectPrototypeNames then PropValue.builtin name
      else PropValue.val JSVal.undefined
    | none =>
      if name ∈ objectPrototypeNames then PropValue.builtin name
      else PropValue.val JSVal.undefined

/-- Property assignment `checks[name] = entry`, where `entry` is an object
literal: an existing own property gets the new value and keeps its place;
otherwise the name `__proto__` reaches the setter of `Object.prototype`,
which makes `entry` the prototype and adds no own property; any other name
becomes a new own property. -/
def Checks.set (c : Checks) (name : String) (entry : Entry) : Checks :=
  match ownLookup c.own name with
  | some _ => { c with own := ownReplace c.own name entry }
  | none =>
    if name = "__proto__" then { c with proto := some entry }
    else
      match arrayIndex? name with
      | some n => { c with own := ownInsertIndex c.own n name entry }
      | none => { c with own := c.own ++ [(name, entry)] }

/-- Own property names, `Object.keys(checks)`. -/
def Checks.keys (c : Checks) : List String := c.own.map Prod.fst

/-- Two states of `this.checks` that no read and no listing of the keys, taken
as a set, can tell apart. -/
def Checks.Same (c₁ c₂ : Checks) : Prop :=
  (∀ k, c₁.getOwn k = c₂.getOwn k) ∧ c₁.proto = c₂.proto ∧ (c₁.keys).Perm c₂.keys

/-- The entry a handler left under `name`: as an own property or, for
`__proto__` without such an own property, as the prototype. -/
def Checks.Stored (c : Checks) (name : String) (e : Entry) : Prop :=
  c.getOwn name = some e ∨ (name = "__proto__" ∧ c.getOwn name = none ∧ c.proto = some e)

/-- ToBoolean of a value read from `this.checks`. -/
def PropValue.truthy : PropValue → Bool
  | .entry _ => true
  | .val v => v.truthy
  | .error _ => true
  | .builtin _ => true

/-- ToBoolean of `v.error` for a value `v` read from `this.checks`; `none`
when reading the property raises a TypeError (`v` is `undefined` or
`null`). -/
def PropValue.errorTruthy : PropValue → Option Bool
  | .entry e => some e.error.isSome
  | .val JSVal.undefined => none
  | .val JSVal.null => none
  | .val (JSVal.obj fields) =>
    match fields.lookup "error" with
    | some s => some (s != "")
    | none => some false
  | .val _ => some false
  | .error _ => some false
  | .builtin _ => some false

/-! ## The generator object -/

/-- Calls made on `this.log`, in order. -/
inductive LogCall where
  | write (text : Option String)
  | info (text : String) (args : List String)
  | ok (text : String)
  | error (what : JSVal)
  | errorObj (err : ErrorInfo)
  deriving DecidableEq, Repr

/-- The generator object `this` together with a record of what the run has
done so far: `exitCode` is the argument of `process.exit` once it was called,
`doneCalls` counts the calls of the completion callback `done`,
`downloads` and `checkAllCalls` count the calls of `download` and
`deps.checkAll`, and `observer` is true once `downloader.use` was called. -/
structure Gen where
  quiet : Bool
  verbose : Bool
  messages : List JSVal
  checks : Checks
  log : List LogCall
  exitCode : Option Nat
  doneCalls : Nat
  downloads : Nat
  checkAllCalls : Nat
  observer : Bool
  deriving DecidableEq, Repr

/-- The constructor: `this.quiet = this.options.quiet`,
`this.verbose = !this.quiet`, `this.messages = []`, `this.checks = {}`. -/
def constructor (quiet : Bool) : Gen :=
  { quiet := quiet, verbose := !quiet, messages := [], checks := Checks.empty, log := [],
    exitCode := none, doneCalls := 0, downloads := 0, checkAllCalls := 0,
    observer := false }

/-! ## Check events -/

/-- The events `passed` and `failed` emitted by the object `deps.checkAll`
returns, with the properties of `res` the handlers read. -/
inductive CheckEvent where
  | passed (what : String) (data : JSVal) (result : JSVal)
  | failed (what : String) (data : JSVal) (error : ErrorInfo)
  deriving DecidableEq, Repr

/-- The property `res.what`. -/
def CheckEvent.what : CheckEvent → String
  | .passed w _ _ => w
  | .failed w _ _ => w

/-- The property `res.data`. -/
def CheckEvent.data : CheckEvent → JSVal
  | .passed _ d _ => d
  | .failed _ d _ => d

/-- Whether the event is a `failed` one. -/
def CheckEvent.isFailed : CheckEvent → Bool
  | .passed _ _ _ => false
  | .failed _ _ _ => true

/-- The object literal each handler stores under `res.what`. -/
def CheckEvent.entry : CheckEvent → Entry
  | .passed _ d _ => { data := d, error := none }
  | .failed _ d e => { data := d, error := some e }

/-- The value `res.error.message` the `failed` handler pushes on
`this.messages`; a `passed` event pushes nothing. -/
def CheckEvent.message? : CheckEvent → Option JSVal
  | .passed _ _ _ => none
  | .failed _ _ e => some e.message

/-- Everything the emitter can deliver: a check event or `done`. -/
inductive Signal where
  | check (e : CheckEvent)
  | done
  deriving DecidableEq, Repr

/-- The handlers `checks.on('passed', ...)` and `checks.on('failed', ...)`. -/
def handleCheck (self : Gen) : CheckEvent → Gen
  | .passed what data result =>
    let self1 := { self with checks := self.checks.set what { data := data, error := none } }
    if self1.verbose then
      { self1 with log := self1.log ++
          [LogCall.ok (what ++ " " ++ (result.or (JSVal.str "")).toStr)] }
    else self1
  | .failed what data error =>
    { self with
      checks := self.checks.set what { data := data, error := some error }
      messages := self.messages ++ [error.message]
      log := self.log ++ [LogCall.error error.message] }

/-- One delivered signal: `done` calls the completion callback. -/
def handleSignal (self : Gen) : Signal → Gen
  | .check e => handleCheck self e
  | .done => { self with doneCalls := self.doneCalls + 1 }

/-- The check events handled one after the other, in arrival order. -/
def handleChecks (self : Gen) (evs : List CheckEvent) : Gen :=
  evs.foldl handleCheck self

/-- The signals handled one after the other, in arrival order. -/
def handleSignals (self : Gen) (sigs : List Signal) : Gen :=
  sigs.foldl handleSignal self

/-- What a run leaves behind apart from presentation (the log, the flags
`quiet` and `verbose`, and the progress observer). -/
def Gen.outcome (self : Gen) : Checks × List JSVal × Option Nat × Nat × Nat × Nat :=
  (self.checks, self.messages, self.exitCode, self.doneCalls, self.downloads,
    self.checkAllCalls)

/-! ## `configuring` -/

/-- The release object `ver` handed to the download callback. -/
structure Release where
  tag_name : String
  deriving DecidableEq, Repr

/-- What the `download` module (not part of this file) reports: either an
error to the first callback, or a downloader with the release URL and
version; in the second case `chunks` data events arrive while the archive is
fetched and `runErr` is the argument of the callback of `downloader.run`. -/
inductive Download where
  | failed (err : ErrorInfo)
  | fetched (url : String) (ver : Release) (chunks : Nat) (runErr : Option ErrorInfo)
  deriving DecidableEq, Repr

/-- The string `chalk.yellow(s)`. -/
def chalk_yellow (s : String) : String := "\x1b[33m" ++ s ++ "\x1b[39m"

/-- Appends calls to the log of the generator. -/
def Gen.logs (self : Gen) (calls : List LogCall) : Gen :=
  { self with log := self.log ++ calls }

/-- The method `configuring`, run on the result of the download and the
signals the check emitter delivers afterwards. -/
def configuring (self : Gen) (dl : Download) (sigs : List Signal) : Gen :=
  let s0 := if self.verbose then
      self.logs [LogCall.write none, LogCall.info "Getting latest WSK release version ..." []]
    else self
  let s1 := { s0 with downloads := s0.downloads + 1 }
  match dl with
  | .failed err =>
    { s1.logs [LogCall.errorObj err] with exitCode := some 1 }
  | .fetched url ver chunks runErr =>
    let s2 := if s1.verbose then
        { s1.logs [LogCall.info "Found release %s" [ver.tag_name],
                   LogCall.info "Fetching %s ..." [url],
                   LogCall.info (chalk_yellow "This might take a few moments") []]
          with observer := true }
      else s1
    let s3 := if s2.observer then
        s2.logs (List.replicate chunks (LogCall.write (some ".")))
      else s2
    match runErr with
    | some err =>
      { s3.logs [LogCall.write none, LogCall.errorObj err, LogCall.write none]
        with exitCode := some 1 }
    | none =>
      let s4 := if s3.verbose then
          s3.logs [LogCall.write none, LogCall.ok "Done",
                   LogCall.info "Checking dependencies ..." []]
        else s3
      let s5 := { s4 with checkAllCalls := s4.checkAllCalls + 1 }
      handleSignals s5 sigs

/-! ## `end` -/

/-- The loop `for (var i = 0, m; (m = this.messages[i]); i++)` of `end`,
entered at index `i` with the elements of `this.messages` from `i` on: it
stops at the first falsy `m`, which is what `this.messages[i]` is past the
end of the array (`undefined`). -/
def endLoop : List JSVal → Nat → List LogCall
  | [], _ => []
  | m :: rest, i =>
    if m.truthy then
      LogCall.write (some (toString (i + 1) ++ " " ++ m.toStr)) :: endLoop rest (i + 1)
    else []

/-- The method `end`. -/
def end_ (self : Gen) : Gen :=
  if self.messages.length = 0 then
    if self.verbose then
      self.logs [LogCall.write none, LogCall.ok "You are all set now. Happy coding!"]
    else self
  else
    (self.logs [LogCall.write none,
                LogCall.error (JSVal.str "There were some errors during the process:"),
                LogCall.write none]).logs (endLoop self.messages 0)

/-! ## `writing.packagejson`: the package name -/

/-- The characters the class `[0-9a-z_\-]` matches under the flag `i`. -/
def allowedChar (c : Char) : Bool :=
  ('0' ≤ c && c ≤ '9') || ('a' ≤ c && c ≤ 'z') || ('A' ≤ c && c ≤ 'Z') || c = '_' || c = '-'

/-- The first `replace` call: every character outside the class becomes
`'-'`. JavaScript replaces per UTF-16 code unit, so a character outside the
Basic Multilingual Plane gives two dashes there and one here; the second
call turns both into the same single dash. -/
def replaceDisallowed (cs : List Char) : List Char :=
  cs.map fun c => if allowedChar c then c else '-'

/-- The second `replace` call, with the pattern `-+`, the flag `g` and the
replacement `'-'`, as a left-to-right scan; `inRun` tells that the previous
character belongs to the match of `-+` being replaced. -/
def collapseDashes : Bool → List Char → List Char
  | _, [] => []
  | inRun, c :: rest =>
    if c = '-' then
      if inRun then collapseDashes true rest else '-' :: collapseDashes true rest
    else c :: collapseDashes false rest

/-- The value assigned to `pkg.name`; `none` is a missing `siteName`. -/
def writing.packagejson.name (siteName : Option String) : String :=
  let base := match siteName with
    | some s => if s = "" then "replace me" else s
    | none => "replace me"
  String.mk (collapseDashes false (replaceDisallowed base.data))

/-! ## `writing.github` and `install.git` -/

/-- The answers of the user read by the two steps. -/
structure Prompts where
  hostingChoice : String
  siteHost : Option String
  githubBranch : String
  githubTarget : String
  deriving DecidableEq, Repr

/-- What a step does to the outside world. -/
inductive Effect where
  | mkdir (path : String)
  | template (source : String) (dest : String)
  | write (path : String) (content : String)
  | exec (cmd : String) (cwd : Option String)
  | log (call : LogCall)
  deriving DecidableEq, Repr

/-- The effects of a step in order, and the exception that ended it, if
any. -/
structure StepResult where
  effects : List Effect
  raised : Option String
  deriving DecidableEq, Repr

/-- The method `writing.github`. `isGitHub` is `prompt.isGitHub` and `stdout`
the output the shell command hands to the callback of `exec`. -/
def writing.github (isGitHub : String → Bool) (self : Gen) (p : Prompts)
    (stdout : String) : StepResult :=
  if p.hostingChoice ≠ "github" then { effects := [], raised := none }
  else
    let e1 := [Effect.mkdir "dist", Effect.template "deploy_github.js" "tasks/deploy.js"]
    let e2 := match p.siteHost with
      | some host =>
        if host ≠ "" && !isGitHub host then e1 ++ [Effect.write "app/CNAME" host] else e1
      | none => e1
    match (self.checks.get "git").errorTruthy with
    | none =>
      { effects := e2,
        raised := some "TypeError: Cannot read property \"error\" of undefined" }
    | some hasError =>
      if hasError then { effects := e2, raised := none }
      else
        let cmd := " && ".intercalate
          ["git init .",
           "git checkout -b " ++ p.githubBranch,
           "git commit --allow-empty -m \"Initial empty commit\"",
           "git remote add origin git@github.com:" ++ p.githubTarget]
        let e3 := e2 ++ [Effect.exec cmd (some "dist")]
        let e4 := if !self.quiet then
            e3 ++ [Effect.log (LogCall.write none), Effect.log (LogCall.info stdout [])]
          else e3
        { effects := e4, raised := none }

/-- The method `install.git`. `execErr` and `stdout` are the arguments the
callback of `exec` receives. -/
def install.git (self : Gen) (execErr : Option ErrorInfo) (stdout : String) : StepResult :=
  if !(self.checks.get "git").truthy then { effects := [], raised := none }
  else
    if (self.checks.get "git").errorTruthy = some true then { effects := [], raised := none }
    else
      let cmd := " && ".intercalate
        ["git init", "git add .", "git commit -m \"Initial commit\""]
      let e1 := [Effect.exec cmd none]
      let e2 := match execErr with
        | some err => e1 ++ [Effect.log (LogCall.errorObj err)]
        | none => e1
      let e3 := if self.verbose then e2 ++ [Effect.log (LogCall.write (some stdout))] else e2
      { effects := e3, raised := none }

/-! ## Facts about the object `this.checks` -/

theorem ownLookup_eq_none_iff (l : List (String × Entry)) (k : String) :
    ownLookup l k = none ↔ k ∉ l.map Prod.fst := by
  induction l with
  | nil => simp [ownLookup]
  | cons p rest ih =>
    obtain ⟨a, b⟩ := p
    by_cases h : a = k
    · simp [ownLookup, h]
    · have h' : ¬ k = a := fun e => h e.symm
      simp [ownLookup, h, h', ih]

theorem ownLookup_replace_self (l : List (String × Entry)) (k : String) (v e : Entry)
    (h : ownLookup l k = some e) : ownLookup (ownReplace l k v) k = some v := by
  induction l with
  | nil => simp [ownLookup] at h
  | cons p rest ih =>
    obtain ⟨a, b⟩ := p
    by_cases hak : a = k
    · simp [ownReplace, ownLookup, hak]
    · simp only [ownLookup, hak, if_false] at h
      simp [ownReplace, ownLookup, hak, ih h]

theorem ownLookup_replace_ne (l : List (String × Entry)) (k k' : String) (v : Entry)
    (h : k ≠ k') : ownLookup (ownReplace l k v) k' = ownLookup l k' := by
  induction l with
  | nil => rfl
  | cons p rest ih =>
    obtain ⟨a, b⟩ := p
    by_cases hak : a = k
    · subst hak
      simp [ownReplace, ownLookup, h]
    · by_cases hak' : a = k'
      · subst hak'
        simp [ownReplace, ownLookup, hak]
      · simp [ownReplace, ownLookup, hak, hak', ih]

theorem ownReplace_keys (l : List (String × Entry)) (k : String) (v : Entry) :
    (ownReplace l k v).map Prod.fst = l.map Prod.fst := by
  induction l with
  | nil => rfl
  | cons p rest ih =>
    obtain ⟨a, b⟩ := p
    by_cases hak : a = k <;> simp [ownReplace, hak, ih]

theorem ownInsertIndex_perm (l : List (String × Entry)) (n : Nat) (k : String) (v : Entry) :
    (ownInsertIndex l n k v).Perm ((k, v) :: l) := by
  induction l with
  | nil => exact List.Perm.refl _
  | cons p rest ih =>
    obtain ⟨a, b⟩ := p
    simp only [ownInsertIndex]
    split
    · split
      · exact (List.Perm.cons _ ih).trans (List.Perm.swap _ _ _)
      · exact List.Perm.refl _
    · exact List.Perm.refl _

theorem ownLookup_insertIndex (l : List (String × Entry)) (n : Nat) (k k' : String)
    (v : Entry) (h : ownLookup l k = none) :
    ownLookup (ownInsertIndex l n k v) k' = if k = k' then some v else ownLookup l k' := by
  induction l with
  | nil => simp [ownInsertIndex, ownLookup]
  | cons p rest ih =>
    obtain ⟨a, b⟩ := p
    have hak : ¬ a = k := by
      intro e
      simp [ownLookup, e] at h
    have hrest : ownLookup rest k = none := by
      simpa [ownLookup, hak] using h
    simp only [ownInsertIndex]
    split
    · split
      · by_cases hak' : a = k'
        · have hkk : ¬ k = k' := fun e => hak (hak'.trans e.symm)
          simp [ownLookup, hak', hkk]
        · simp [ownLookup, hak', ih hrest]
      · by_cases hkk : k = k' <;> simp [ownLookup, hkk]
    · by_cases hkk : k = k' <;> simp [ownLookup, hkk]

theorem ownLookup_append_single (l : List (String × Entry)) (k k' : String) (v : Entry)
    (h : ownLookup l k = none) :
    ownLookup (l ++ [(k, v)]) k' = if k = k' then some v else ownLookup l k' := by
  induction l with
  | nil => simp [ownLookup]
  | cons p rest ih =>
    obtain ⟨a, b⟩ := p
    have hak : ¬ a = k := by
      intro e
      simp [ownLookup, e] at h
    have hrest : ownLookup rest k = none := by
      simpa [ownLookup, hak] using h
    by_cases hak' : a = k'
    · have hkk : ¬ k = k' := fun e => hak (hak'.trans e.symm)
      simp [ownLookup, hak', hkk]
    · simp [ownLookup, hak', ih hrest]

/-- The own properties after an assignment. -/
theorem Checks.getOwn_set (c : Checks) (k k' : String) (v : Entry) :
    (Checks.set c k v).getOwn k' =
      if k = k' ∧ ¬ (k = "__proto__" ∧ c.getOwn k = none) then some v else c.getOwn k' := by
  unfold Checks.set Checks.getOwn
  cases hk : ownLookup c.own k with
  | some e =>
    by_cases hkk : k = k'
    · subst hkk
      simp [ownLookup_replace_self c.own k v e hk]
    · simp [hkk, ownLookup_replace_ne c.own k k' v hkk]
  | none =>
    by_cases hp : k = "__proto__"
    · simp [hp]
    · simp only [hp, if_false, false_and, not_false_eq_true, and_true]
      cases arrayIndex? k with
      | some n => exact ownLookup_insertIndex c.own n k k' v hk
      | none => exact ownLookup_append_single c.own k k' v hk

/-- The prototype after an assignment. -/
theorem Checks.proto_set (c : Checks) (k : String) (v : Entry) :
    (Checks.set c k v).proto =
      if k = "__proto__" ∧ c.getOwn k = none then some v else c.proto := by
  unfold Checks.set Checks.getOwn
  cases hk : ownLookup c.own k with
  | some e => simp
  | none =>
    by_cases hp : k = "__proto__"
    · simp [hp]
    · simp only [hp, if_false, false_and]
      cases arrayIndex? k <;> rfl

/-- The own properties after an assignment, as a collection: nothing is added
when the name is already an own property or is `__proto__`. -/
theorem Checks.own_set_perm (c : Checks) (k : String) (v : Entry)
    (hk : c.getOwn k = none) (hp : k ≠ "__proto__") :
    (Checks.set c k v).own.Perm ((k, v) :: c.own) := by
  unfold Checks.getOwn at hk
  unfold Checks.set
  simp only [hk, hp, if_false]
  cases arrayIndex? k with
  | some n => exact ownInsertIndex_perm c.own n k v
  | none => exact List.perm_append_singleton _ _

theorem Checks.keys_set_of_own (c : Checks) (k : String) (v e : Entry)
    (hk : c.getOwn k = some e) : (Checks.set c k v).keys = c.keys := by
  unfold Checks.getOwn at hk
  unfold Checks.set Checks.keys
  simp only [hk]
  exact ownReplace_keys c.own k v

theorem Checks.keys_set_proto (c : Checks) (v : Entry)
    (hk : c.getOwn "__proto__" = none) : (Checks.set c "__proto__" v).keys = c.keys := by
  unfold Checks.getOwn at hk
  unfold Checks.set Checks.keys
  simp [hk]

theorem Checks.keys_set_new (c : Checks) (k : String) (v : Entry)
    (hk : c.getOwn k = none) (hp : k ≠ "__proto__") :
    (Checks.set c k v).keys.Perm (k :: c.keys) :=
  (Checks.own_set_perm c k v hk hp).map Prod.fst

theorem Checks.getOwn_eq_none_iff (c : Checks) (k : String) :
    c.getOwn k = none ↔ k ∉ c.keys :=
  ownLookup_eq_none_iff c.own k

theorem Checks.get_of_getOwn (c : Checks) (k : String) (e : Entry)
    (h : c.getOwn k = some e) : c.get k = PropValue.entry e := by
  unfold Checks.getOwn at h
  simp [Checks.get, h]

/-- A read is decided by the own property of that name and the prototype. -/
theorem Checks.get_congr (c₁ c₂ : Checks) (k : String)
    (h : c₁.getOwn k = c₂.getOwn k) (hp : c₁.proto = c₂.proto) : c₁.get k = c₂.get k := by
  unfold Checks.getOwn at h
  simp [Checks.get, h, hp]

theorem Checks.stored_get {c : Checks} {k : String} {e : Entry} (h : c.Stored k e) :
    c.get k = PropValue.entry e := by
  rcases h with h | ⟨hk, hown, hp⟩
  · exact Checks.get_of_getOwn c k e h
  · unfold Checks.getOwn at hown
    subst hk
    simp [Checks.get, hown, hp]

/-- Right after an assignment the entry is the one left under its name. -/
theorem Checks.stored_set_self (c : Checks) (k : String) (v : Entry) :
    (Checks.set c k v).Stored k v := by
  unfold Checks.Stored
  rw [Checks.getOwn_set, Checks.proto_set]
  by_cases h : k = "__proto__" ∧ c.getOwn k = none
  · right
    obtain ⟨h1, h2⟩ := h
    subst h1
    simp [h2]
  · left
    simp [h]

/-- An assignment to another name leaves the entry where it is. -/
theorem Checks.stored_set_ne (c : Checks) (k k' : String) (v e : Entry) (hne : k' ≠ k)
    (h : c.Stored k e) : (Checks.set c k' v).Stored k e := by
  unfold Checks.Stored at h ⊢
  rw [Checks.getOwn_set, Checks.proto_set]
  rcases h with h | ⟨hk, hown, hp⟩
  · left
    simp [hne, h]
  · right
    subst hk
    simp [hne, hown, hp]

theorem Checks.get_set_self (c : Checks) (k : String) (v : Entry) :
    (Checks.set c k v).get k = PropValue.entry v :=
  Checks.stored_get (Checks.stored_set_self c k v)

/-- An assignment to a name other than `__proto__` changes no read of another
name. -/
theorem Checks.get_set_ne (c : Checks) (k k' : String) (v : Entry) (hne : k ≠ k')
    (hp : k ≠ "__proto__") : (Checks.set c k v).get k' = c.get k' := by
  apply Checks.get_congr
  · rw [Checks.getOwn_set]; simp [hne]
  · rw [Checks.proto_set]; simp [hp]

/-- An assignment changes no own property of another name. -/
theorem Checks.getOwn_set_ne (c : Checks) (k k' : String) (v : Entry) (hne : k ≠ k') :
    (Checks.set c k v).getOwn k' = c.getOwn k' := by
  rw [Checks.getOwn_set]; simp [hne]

theorem Checks.keys_set_perm (c : Checks) (k : String) (v : Entry) :
    (Checks.set c k v).keys.Perm
      (if c.getOwn k = none ∧ k ≠ "__proto__" then k :: c.keys else c.keys) := by
  cases hk : c.getOwn k with
  | some e =>
    rw [Checks.keys_set_of_own c k v e hk]
    simp
  | none =>
    by_cases hp : k = "__proto__"
    · subst hp
      rw [Checks.keys_set_proto c v hk]
      simp
    · simp only [hp, ne_eq, not_false_eq_true, and_self, if_true]
      exact Checks.keys_set_new c k v hk hp

theorem Checks.same_refl (c : Checks) : Checks.Same c c :=
  ⟨fun _ => rfl, rfl, List.Perm.refl _⟩

theorem Checks.same_get {c₁ c₂ : Checks} (h : Checks.Same c₁ c₂) (k : String) :
    c₁.get k = c₂.get k :=
  Checks.get_congr c₁ c₂ k (h.1 k) h.2.1

/-- The same assignment keeps two indistinguishable states
indistinguishable. -/
theorem Checks.same_set {c₁ c₂ : Checks} (h : Checks.Same c₁ c₂) (k : String) (v : Entry) :
    Checks.Same (Checks.set c₁ k v) (Checks.set c₂ k v) := by
  obtain ⟨h1, h2, h3⟩ := h
  refine ⟨fun k' => ?_, ?_, ?_⟩
  · rw [Checks.getOwn_set, Checks.getOwn_set, h1 k, h1 k']
  · rw [Checks.proto_set, Checks.proto_set, h1 k, h2]
  · refine (Checks.keys_set_perm c₁ k v).trans (List.Perm.trans ?_ (Checks.keys_set_perm c₂ k v).symm)
    rw [h1 k]
    split
    · exact List.Perm.cons _ h3
    · exact h3

/-- Assignments to two different names can be made in either order. -/
theorem Checks.set_comm (c : Checks) (k₁ k₂ : String) (v₁ v₂ : Entry) (hne : k₁ ≠ k₂) :
    Checks.Same (Checks.set (Checks.set c k₁ v₁) k₂ v₂)
      (Checks.set (Checks.set c k₂ v₂) k₁ v₁) := by
  have hne' : k₂ ≠ k₁ := fun e => hne e.symm
  have g12 : (Checks.set c k₁ v₁).getOwn k₂ = c.getOwn k₂ := Checks.getOwn_set_ne c k₁ k₂ v₁ hne
  have g21 : (Checks.set c k₂ v₂).getOwn k₁ = c.getOwn k₁ := Checks.getOwn_set_ne c k₂ k₁ v₂ hne'
  refine ⟨fun k => ?_, ?_, ?_⟩
  · rw [Checks.getOwn_set (Checks.set c k₁ v₁) k₂ k v₂,
      Checks.getOwn_set (Checks.set c k₂ v₂) k₁ k v₁, g12, g21,
      Checks.getOwn_set c k₁ k v₁, Checks.getOwn_set c k₂ k v₂]
    by_cases h1 : k₁ = k
    · have h2 : ¬ k₂ = k := fun e => hne (h1.trans e.symm)
      simp [h1, h2]
    · simp [h1]
  · rw [Checks.proto_set (Checks.set c k₁ v₁) k₂ v₂,
      Checks.proto_set (Checks.set c k₂ v₂) k₁ v₁, g12, g21,
      Checks.proto_set c k₁ v₁, Checks.proto_set c k₂ v₂]
    by_cases h1 : k₁ = "__proto__"
    · have h2 : ¬ k₂ = "__proto__" := fun e => hne (h1.trans e.symm)
      simp [h1, h2]
    · simp [h1]
  · refine (Checks.keys_set_perm _ k₂ v₂).trans
      (List.Perm.trans ?_ (Checks.keys_set_perm _ k₁ v₁).symm)
    rw [g12, g21]
    have p1 := Checks.keys_set_perm c k₁ v₁
    have p2 := Checks.keys_set_perm c k₂ v₂
    by_cases a1 : c.getOwn k₁ = none ∧ k₁ ≠ "__proto__" <;>
      by_cases a2 : c.getOwn k₂ = none ∧ k₂ ≠ "__proto__"
    · rw [if_pos a1] at p1
      rw [if_pos a2] at p2
      rw [if_pos a1, if_pos a2]
      exact ((List.Perm.cons k₂ p1).trans (List.Perm.swap _ _ _)).trans
        (List.Perm.cons k₁ p2.symm)
    · rw [if_pos a1] at p1
      rw [if_neg a2] at p2
      rw [if_pos a1, if_neg a2]
      exact p1.trans (List.Perm.cons k₁ p2.symm)
    · rw [if_neg a1] at p1
      rw [if_pos a2] at p2
      rw [if_neg a1, if_pos a2]
      exact (List.Perm.cons k₂ p1).trans p2.symm
    · rw [if_neg a1] at p1
      rw [if_neg a2] at p2
      rw [if_neg a1, if_neg a2]
      exact p1.trans p2.symm

/-- The dictionary after the handler of a check event ran. -/
theorem handleCheck_checks (s : Gen) (e : CheckEvent) :
    (handleCheck s e).checks = Checks.set s.checks e.what e.entry := by
  cases e with
  | passed w d r =>
    simp only [handleCheck, CheckEvent.what, CheckEvent.entry]
    split <;> rfl
  | failed w d err => rfl

/-- The dictionary after a list of check events. -/
theorem handleChecks_checks (s : Gen) (evs : List CheckEvent) :
    (handleChecks s evs).checks =
      evs.foldl (fun c e => Checks.set c e.what e.entry) s.checks := by
  induction evs generalizing s with
  | nil => rfl
  | cons e rest ih =>
    simp only [handleChecks, List.foldl_cons] at ih ⊢
    rw [ih, handleCheck_checks]

theorem handleChecks_append (s : Gen) (pre post : List CheckEvent) :
    handleChecks s (pre ++ post) = handleChecks (handleChecks s pre) post := by
  simp [handleChecks, List.foldl_append]

/-- Two indistinguishable states stay so after the same events were recorded
in both. -/
theorem foldl_set_same (evs : List CheckEvent) (c₁ c₂ : Checks) (h : Checks.Same c₁ c₂) :
    Checks.Same (evs.foldl (fun c e => Checks.set c e.what e.entry) c₁)
      (evs.foldl (fun c e => Checks.set c e.what e.entry) c₂) := by
  induction evs generalizing c₁ c₂ with
  | nil => exact h
  | cons e rest ih =>
    simp only [List.foldl_cons]
    exact ih _ _ (Checks.same_set h e.what e.entry)

/-- The final state does not depend on the arrival order of events with
pairwise distinct names. -/
theorem foldl_set_perm {l₁ l₂ : List CheckEvent} (hp : l₁.Perm l₂)
    (hnd : (l₁.map CheckEvent.what).Nodup) (c : Checks) :
    Checks.Same (l₁.foldl (fun c e => Checks.set c e.what e.entry) c)
      (l₂.foldl (fun c e => Checks.set c e.what e.entry) c) := by
  induction hp generalizing c with
  | nil => exact Checks.same_refl _
  | cons x _ ih =>
    simp only [List.map_cons, List.nodup_cons] at hnd
    simp only [List.foldl_cons]
    exact ih hnd.2 _
  | swap x y l =>
    simp only [List.map_cons, List.nodup_cons, List.mem_cons, not_or] at hnd
    simp only [List.foldl_cons]
    apply foldl_set_same
    exact Checks.set_comm c y.what x.what y.entry x.entry hnd.1.1
  | trans h₁ _ ih₁ ih₂ =>
    have s1 := ih₁ hnd c
    have s2 := ih₂ ((h₁.map CheckEvent.what).nodup_iff.mp hnd) c
    exact ⟨fun k => (s1.1 k).trans (s2.1 k), s1.2.1.trans s2.2.1, s1.2.2.trans s2.2.2⟩

/-- Events under other names leave an entry where it is. -/
theorem foldl_set_stored_of_ne (evs : List CheckEvent) (c : Checks) (k : String) (e : Entry)
    (h : ∀ e' ∈ evs, e'.what ≠ k) (hs : c.Stored k e) :
    (evs.foldl (fun c e => Checks.set c e.what e.entry) c).Stored k e := by
  induction evs generalizing c with
  | nil => exact hs
  | cons e' rest ih =>
    simp only [List.foldl_cons]
    exact ih _ (fun x hx => h x (List.mem_cons_of_mem _ hx))
      (Checks.stored_set_ne c k _ _ e (h e' (List.mem_cons_self _ _)) hs)

/-- The last event of a list decides what is left under its name. -/
theorem foldl_set_stored_last (evs : List CheckEvent) (e : CheckEvent) (c : Checks) :
    ((evs ++ [e]).foldl (fun c e => Checks.set c e.what e.entry) c).Stored e.what e.entry := by
  simp only [List.foldl_append, List.foldl_cons, List.foldl_nil]
  exact Checks.stored_set_self _ _ _

/-- With pairwise distinct names, every event of the list has left its entry
under its name at the end. -/
theorem foldl_set_stored_of_mem (evs : List CheckEvent) (c : Checks) (e : CheckEvent)
    (he : e ∈ evs) (hnd : (evs.map CheckEvent.what).Nodup) :
    (evs.foldl (fun c e => Checks.set c e.what e.entry) c).Stored e.what e.entry := by
  obtain ⟨pre, post, rfl⟩ := List.append_of_mem he
  simp only [List.map_append, List.map_cons] at hnd
  have hpost : ∀ e' ∈ post, e'.what ≠ e.what := by
    intro e' he' heq
    have h2 := (List.nodup_cons.mp (List.nodup_append.mp hnd).2.1).1
    exact h2 (heq ▸ List.mem_map_of_mem CheckEvent.what he')
  simp only [List.foldl_append, List.foldl_cons]
  exact foldl_set_stored_of_ne post _ _ _ hpost (Checks.stored_set_self _ _ _)

/-- Whatever the names, every event of the list finds under its name, at the
end, the entry of an event of that name. -/
theorem foldl_set_stored_exists (evs : List CheckEvent) (c : Checks) (e : CheckEvent)
    (he : e ∈ evs) :
    ∃ e' ∈ evs, e'.what = e.what ∧
      (evs.foldl (fun c e => Checks.set c e.what e.entry) c).Stored e.what e'.entry := by
  induction evs using List.reverseRecOn with
  | nil => simp at he
  | append_singleton init last ih =>
    by_cases hl : last.what = e.what
    · refine ⟨last, by simp, hl, ?_⟩
      rw [← hl]
      exact foldl_set_stored_last init last c
    · have hmem : e ∈ init := by
        rcases List.mem_append.mp he with h | h
        · exact h
        · simp only [List.mem_singleton] at h
          exact absurd (h ▸ rfl) hl
      obtain ⟨e', he', hw, hs⟩ := ih hmem
      refine ⟨e', List.mem_append_left _ he', hw, ?_⟩
      simp only [List.foldl_append, List.foldl_cons, List.foldl_nil]
      exact Checks.stored_set_ne _ _ _ _ _ hl hs

/-- Without an event named `__proto__` the prototype stays as it was. -/
theorem foldl_set_proto (evs : List CheckEvent) (c : Checks)
    (hp : ∀ e ∈ evs, e.what ≠ "__proto__") :
    (evs.foldl (fun c e => Checks.set c e.what e.entry) c).proto = c.proto := by
  induction evs generalizing c with
  | nil => rfl
  | cons e rest ih =>
    simp only [List.foldl_cons]
    rw [ih _ (fun x hx => hp x (List.mem_cons_of_mem _ hx)), Checks.proto_set]
    simp [hp e (List.mem_cons_self _ _)]

/-- Recording events under names that are new, pairwise distinct and not
`__proto__` adds one own property per event. -/
theorem foldl_set_own_perm (evs : List CheckEvent) (c : Checks)
    (hnew : ∀ e ∈ evs, c.getOwn e.what = none)
    (hp : ∀ e ∈ evs, e.what ≠ "__proto__")
    (hnd : (evs.map CheckEvent.what).Nodup) :
    (evs.foldl (fun c e => Checks.set c e.what e.entry) c).own.Perm
      (c.own ++ evs.map (fun e => (e.what, e.entry))) := by
  induction evs generalizing c with
  | nil => simp
  | cons e rest ih =>
    simp only [List.map_cons, List.nodup_cons, List.mem_map, not_exists, not_and] at hnd
    have he := hnew e (List.mem_cons_self _ _)
    have hpe := hp e (List.mem_cons_self _ _)
    simp only [List.foldl_cons, List.map_cons]
    refine (ih _ ?_ (fun x hx => hp x (List.mem_cons_of_mem _ hx)) hnd.2).trans ?_
    · intro e' he'
      rw [Checks.getOwn_set_ne _ _ _ _ (fun h => hnd.1 e' he' h.symm)]
      exact hnew e' (List.mem_cons_of_mem _ he')
    · exact (List.Perm.append_right _ (Checks.own_set_perm c _ _ he hpe)).trans
        (List.perm_middle.symm)

theorem entry_error_isSome (e : CheckEvent) : e.entry.error.isSome = e.isFailed := by
  cases e <;> rfl

theorem filter_error_map_entry (evs : List CheckEvent) :
    ((evs.map (fun e => (e.what, e.entry))).filter
        (fun p : String × Entry => p.2.error.isSome)).length =
      evs.countP CheckEvent.isFailed := by
  induction evs with
  | nil => rfl
  | cons e rest ih =>
    simp only [List.map_cons, List.filter_cons, List.countP_cons, entry_error_isSome]
    split <;> simp_all

/-! ## The check report built by the handlers -/

/-- The keys of the report are listed with the array-index names first, in
ascending order, and then the other names in arrival order. -/
theorem keys_list_array_indices_first :
    Checks.keys (handleChecks (constructor true)
        [CheckEvent.passed "b" JSVal.undefined JSVal.undefined,
         CheckEvent.passed "2" JSVal.undefined JSVal.undefined,
         CheckEvent.passed "1" JSVal.undefined JSVal.undefined]).checks = ["1", "2", "b"] := by
  decide

/-- An event named `__proto__` adds no key; its entry becomes the prototype,
through which `data` is read, and a second event of that name replaces
it. -/
theorem proto_name_installs_prototype :
    Checks.keys (handleChecks (constructor true)
        [CheckEvent.passed "__proto__" (JSVal.str "2.40") JSVal.undefined]).checks = [] ∧
    Checks.get (handleChecks (constructor true)
        [CheckEvent.passed "__proto__" (JSVal.str "2.40") JSVal.undefined]).checks "data" =
      PropValue.val (JSVal.str "2.40") ∧
    Checks.get (handleChecks (constructor true)
        [CheckEvent.passed "__proto__" (JSVal.str "2.40") JSVal.undefined,
         CheckEvent.failed "__proto__" JSVal.undefined ⟨JSVal.str "not found"⟩]).checks "data" =
      PropValue.val JSVal.undefined := by
  decide

/-- C1, counterexample. With a passed `git` event followed by a failed `git`
event, the entry read under `git` after the second event differs from the
entry read after the first: the later outcome has overwritten the earlier
one. -/
theorem later_event_overwrites_entry :
    Checks.get (handleChecks (constructor true)
        [CheckEvent.passed "git" (JSVal.str "2.40") JSVal.undefined,
         CheckEvent.failed "git" JSVal.undefined ⟨JSVal.str "not found"⟩]).checks "git" ≠
      Checks.get (handleChecks (constructor true)
        [CheckEvent.passed "git" (JSVal.str "2.40") JSVal.undefined]).checks "git" := by
  decide

/-- C1, amended. An outcome recorded under a name is replaced by a later event
carrying the same name: right after the first event a read of the name gives
the entry built from the first event, and after the second event (whatever
arrived in between) it gives the entry built from the second event, so the
two reads agree exactly when both events build the same entry. The second
event changes no own property of another name, and when the name is not
`__proto__` it changes no read of another name. -/
theorem later_event_replaces_entry (s : Gen) (first second : CheckEvent)
    (between : List CheckEvent) (hname : second.what = first.what) :
    Checks.get (handleCheck s first).checks first.what = PropValue.entry first.entry ∧
    Checks.get (handleChecks (handleCheck s first) (between ++ [second])).checks first.what =
      PropValue.entry second.entry ∧
    (Checks.get (handleChecks (handleCheck s first) (between ++ [second])).checks first.what =
        Checks.get (handleCheck s first).checks first.what ↔ second.entry = first.entry) ∧
    (∀ k, k ≠ first.what →
      Checks.getOwn (handleChecks (handleCheck s first) (between ++ [second])).checks k =
        Checks.getOwn (handleChecks (handleCheck s first) between).checks k) ∧
    (first.what ≠ "__proto__" → ∀ k, k ≠ first.what →
      Checks.get (handleChecks (handleCheck s first) (between ++ [second])).checks k =
        Checks.get (handleChecks (handleCheck s first) between).checks k) := by
  have h1 : Checks.get (handleCheck s first).checks first.what =
      PropValue.entry first.entry := by
    rw [handleCheck_checks]; exact Checks.get_set_self _ _ _
  have h2 : Checks.get (handleChecks (handleCheck s first) (between ++ [second])).checks
      first.what = PropValue.entry second.entry := by
    rw [handleChecks_checks, ← hname]
    exact Checks.stored_get (foldl_set_stored_last between second _)
  have hstep : (handleChecks (handleCheck s first) (between ++ [second])).checks =
      Checks.set (handleChecks (handleCheck s first) between).checks second.what
        second.entry := by
    rw [handleChecks_append, handleChecks_checks (handleChecks (handleCheck s first) between)]
    rfl
  refine ⟨h1, h2, ?_, ?_, ?_⟩
  · rw [h1, h2]
    constructor
    · intro h; exact PropValue.entry.inj h
    · intro h; rw [h]
  · intro k hk
    rw [hstep]
    exact Checks.getOwn_set_ne _ _ _ _ (fun h => hk (h ▸ hname))
  · intro hp k hk
    rw [hstep]
    exact Checks.get_set_ne _ _ _ _ (fun h => hk (h ▸ hname)) (hname ▸ hp)

/-- C1, witness: a passed `git`, a passed `npm`, then a failed `git`; the
entry read under `git` is the one of the failed event, and the read under
`npm` is not changed by the failed event. -/
theorem later_event_replaces_entry_witness :
    Checks.get (handleChecks
        (handleCheck (constructor true) (CheckEvent.passed "git" (JSVal.str "2.40") JSVal.undefined))
        ([CheckEvent.passed "npm" JSVal.undefined JSVal.undefined] ++
          [CheckEvent.failed "git" JSVal.undefined ⟨JSVal.str "not found"⟩])).checks "git" =
      PropValue.entry { data := JSVal.undefined, error := some ⟨JSVal.str "not found"⟩ } ∧
    Checks.get (handleChecks
        (handleCheck (constructor true) (CheckEvent.passed "git" (JSVal.str "2.40") JSVal.undefined))
        ([CheckEvent.passed "npm" JSVal.undefined JSVal.undefined] ++
          [CheckEvent.failed "git" JSVal.undefined ⟨JSVal.str "not found"⟩])).checks "npm" =
      Checks.get (handleChecks
        (handleCheck (constructor true) (CheckEvent.passed "git" (JSVal.str "2.40") JSVal.undefined))
        [CheckEvent.passed "npm" JSVal.undefined JSVal.undefined]).checks "npm" :=
  ⟨(later_event_replaces_entry (constructor true)
      (CheckEvent.passed "git" (JSVal.str "2.40") JSVal.undefined)
      (CheckEvent.failed "git" JSVal.undefined ⟨JSVal.str "not found"⟩)
      [CheckEvent.passed "npm" JSVal.undefined JSVal.undefined] rfl).2.1,
   (later_event_replaces_entry (constructor true)
      (CheckEvent.passed "git" (JSVal.str "2.40") JSVal.undefined)
      (CheckEvent.failed "git" JSVal.undefined ⟨JSVal.str "not found"⟩)
      [CheckEvent.passed "npm" JSVal.undefined JSVal.undefined] rfl).2.2.2.2
      (by decide) "npm" (by decide)⟩

/-- C2. For check events with pairwise distinct names, feeding any permutation
of the list through the handlers from the freshly constructed generator gives
the same report: every name reads the same value, and the two reports have
the same keys. -/
theorem report_order_insensitive (quiet : Bool) (evs evs' : List CheckEvent)
    (hnd : (evs.map CheckEvent.what).Nodup) (hp : evs.Perm evs') :
    (∀ k, Checks.get (handleChecks (constructor quiet) evs').checks k =
        Checks.get (handleChecks (constructor quiet) evs).checks k) ∧
    (Checks.keys (handleChecks (constructor quiet) evs').checks).Perm
      (Checks.keys (handleChecks (constructor quiet) evs).checks) := by
  have hsame := foldl_set_perm hp hnd (constructor quiet).checks
  rw [← handleChecks_checks, ← handleChecks_checks] at hsame
  exact ⟨fun k => (Checks.same_get hsame k).symm, hsame.2.2.symm⟩

/-- C2, witness: a passed `git` and a failed `bower`, in both orders. -/
theorem report_order_insensitive_witness :
    (∀ k, Checks.get (handleChecks (constructor false)
          [CheckEvent.failed "bower" JSVal.undefined ⟨JSVal.str "not found"⟩,
           CheckEvent.passed "git" (JSVal.obj [("version", "2.40")]) JSVal.undefined]).checks k =
        Checks.get (handleChecks (constructor false)
          [CheckEvent.passed "git" (JSVal.obj [("version", "2.40")]) JSVal.undefined,
           CheckEvent.failed "bower" JSVal.undefined ⟨JSVal.str "not found"⟩]).checks k) ∧
    (Checks.keys (handleChecks (constructor false)
          [CheckEvent.failed "bower" JSVal.undefined ⟨JSVal.str "not found"⟩,
           CheckEvent.passed "git" (JSVal.obj [("version", "2.40")]) JSVal.undefined]).checks).Perm
      (Checks.keys (handleChecks (constructor false)
          [CheckEvent.passed "git" (JSVal.obj [("version", "2.40")]) JSVal.undefined,
           CheckEvent.failed "bower" JSVal.undefined ⟨JSVal.str "not found"⟩]).checks) :=
  report_order_insensitive false
    [CheckEvent.passed "git" (JSVal.obj [("version", "2.40")]) JSVal.undefined,
     CheckEvent.failed "bower" JSVal.undefined ⟨JSVal.str "not found"⟩]
    [CheckEvent.failed "bower" JSVal.undefined ⟨JSVal.str "not found"⟩,
     CheckEvent.passed "git" (JSVal.obj [("version", "2.40")]) JSVal.undefined]
    (by decide) (List.Perm.swap _ _ [])

/-- C3, counterexample. Two check events with the distinct names `__proto__`
and `git`: the assignment under `__proto__` installs its entry as the
prototype and adds no own property, so the report has one key, `git`, not
two, and the name `__proto__` is not among its keys. -/
theorem report_misses_key_for_proto_name :
    ([CheckEvent.passed "__proto__" (JSVal.str "x") JSVal.undefined,
      CheckEvent.passed "git" JSVal.undefined JSVal.undefined].map CheckEvent.what).Nodup ∧
    Checks.keys (handleChecks (constructor true)
        [CheckEvent.passed "__proto__" (JSVal.str "x") JSVal.undefined,
         CheckEvent.passed "git" JSVal.undefined JSVal.undefined]).checks = ["git"] ∧
    (Checks.keys (handleChecks (constructor true)
        [CheckEvent.passed "__proto__" (JSVal.str "x") JSVal.undefined,
         CheckEvent.passed "git" JSVal.undefined JSVal.undefined]).checks).length ≠
      [CheckEvent.passed "__proto__" (JSVal.str "x") JSVal.undefined,
       CheckEvent.passed "git" JSVal.undefined JSVal.undefined].length := by
  decide

/-- C3, amended. For N check events with pairwise distinct names, none of them
`__proto__`, the report built from the freshly constructed generator holds
exactly one own property per event: its own properties are the pairs of an
event name and the entry of that event, its keys are exactly the event names
and there are N of them, a failed name reads the data of its event and its
error, a passed name reads the data of its event and no error, the entries
carrying an error are as many as the failed events, and the prototype is
still `Object.prototype`. -/
theorem report_exactly_one_entry_per_event (quiet : Bool) (evs : List CheckEvent)
    (hnd : (evs.map CheckEvent.what).Nodup)
    (hproto : ∀ e ∈ evs, e.what ≠ "__proto__") :
    (handleChecks (constructor quiet) evs).checks.own.Perm
      (evs.map (fun e => (e.what, e.entry))) ∧
    (Checks.keys (handleChecks (constructor quiet) evs).checks).Perm
      (evs.map CheckEvent.what) ∧
    (Checks.keys (handleChecks (constructor quiet) evs).checks).length = evs.length ∧
    (∀ k, k ∈ Checks.keys (handleChecks (constructor quiet) evs).checks ↔
      ∃ e ∈ evs, e.what = k) ∧
    (∀ what data err, CheckEvent.failed what data err ∈ evs →
      Checks.get (handleChecks (constructor quiet) evs).checks what =
        PropValue.entry { data := data, error := some err }) ∧
    (∀ what data result, CheckEvent.passed what data result ∈ evs →
      Checks.get (handleChecks (constructor quiet) evs).checks what =
        PropValue.entry { data := data, error := none }) ∧
    ((handleChecks (constructor quiet) evs).checks.own.filter
        (fun p : String × Entry => p.2.error.isSome)).length =
      evs.countP CheckEvent.isFailed ∧
    (handleChecks (constructor quiet) evs).checks.proto = none := by
  have hc : (handleChecks (constructor quiet) evs).checks.own.Perm
      (evs.map (fun e => (e.what, e.entry))) := by
    rw [handleChecks_checks]
    have h := foldl_set_own_perm evs (constructor quiet).checks (fun _ _ => rfl) hproto hnd
    simpa [constructor, Checks.empty] using h
  have hk : (Checks.keys (handleChecks (constructor quiet) evs).checks).Perm
      (evs.map CheckEvent.what) := by
    have h := hc.map Prod.fst
    simpa [Checks.keys, List.map_map, Function.comp_def] using h
  refine ⟨hc, hk, ?_, ?_, ?_, ?_, ?_, ?_⟩
  · rw [hk.length_eq, List.length_map]
  · intro k
    rw [hk.mem_iff, List.mem_map]
  · intro what data err he
    rw [handleChecks_checks]
    exact Checks.stored_get (foldl_set_stored_of_mem evs _ _ he hnd)
  · intro what data result he
    rw [handleChecks_checks]
    exact Checks.stored_get (foldl_set_stored_of_mem evs _ _ he hnd)
  · rw [(hc.filter _).length_eq]
    exact filter_error_map_entry evs
  · rw [handleChecks_checks, foldl_set_proto evs _ hproto]
    rfl

/-- C3, witness: the report of git passed, npm passed, bower failed. -/
theorem report_exactly_one_entry_per_event_witness :
    (handleChecks (constructor false)
        [CheckEvent.passed "git" (JSVal.obj [("version", "2.40")]) JSVal.undefined,
         CheckEvent.passed "npm" JSVal.undefined JSVal.undefined,
         CheckEvent.failed "bower" JSVal.undefined ⟨JSVal.str "not found"⟩]).checks.own.Perm
      [("git", { data := JSVal.obj [("version", "2.40")], error := none }),
       ("npm", { data := JSVal.undefined, error := none }),
       ("bower", { data := JSVal.undefined, error := some ⟨JSVal.str "not found"⟩ })] :=
  (report_exactly_one_entry_per_event false
    [CheckEvent.passed "git" (JSVal.obj [("version", "2.40")]) JSVal.undefined,
     CheckEvent.passed "npm" JSVal.undefined JSVal.undefined,
     CheckEvent.failed "bower" JSVal.undefined ⟨JSVal.str "not found"⟩] (by decide)
    (by decide)).1

/-! ## The package name -/

theorem allowedChar_eq (c : Char) :
    allowedChar c = (c.isAlphanum || c == '_' || c == '-') := by
  have h0 : ('0' : Char).val = 48 := rfl
  have h9 : ('9' : Char).val = 57 := rfl
  have ha : ('a' : Char).val = 97 := rfl
  have hz : ('z' : Char).val = 122 := rfl
  have hA : ('A' : Char).val = 65 := rfl
  have hZ : ('Z' : Char).val = 90 := rfl
  rw [Bool.eq_iff_iff]
  simp only [allowedChar, Char.isAlphanum, Char.isAlpha, Char.isUpper, Char.isLower, Char.isDigit,
    Char.le_def, h0, h9, ha, hz, hA, hZ, Bool.or_eq_true, Bool.and_eq_true, decide_eq_true_eq,
    beq_iff_eq, ge_iff_le]
  tauto

theorem allowedChar_dash : allowedChar '-' = true := by decide

theorem replaceDisallowed_allowed (cs : List Char) :
    ∀ c ∈ replaceDisallowed cs, allowedChar c = true := by
  intro c hc
  simp only [replaceDisallowed, List.mem_map] at hc
  obtain ⟨a, _, rfl⟩ := hc
  by_cases h : allowedChar a = true
  · simp [h]
  · simp [h, allowedChar_dash]

theorem replaceDisallowed_of_allowed (cs : List Char)
    (h : ∀ c ∈ cs, allowedChar c = true) : replaceDisallowed cs = cs := by
  induction cs with
  | nil => rfl
  | cons c rest ih =>
    have hc := h c (List.mem_cons_self _ _)
    simp only [replaceDisallowed, List.map_cons, hc, if_true]
    exact congrArg _ (ih (fun x hx => h x (List.mem_cons_of_mem _ hx)))

theorem collapseDashes_subset (b : Bool) (cs : List Char) :
    ∀ c ∈ collapseDashes b cs, c ∈ cs := by
  induction cs generalizing b with
  | nil => simp [collapseDashes]
  | cons a rest ih =>
    intro c hc
    simp only [collapseDashes] at hc
    split at hc
    · split at hc
      · exact List.mem_cons_of_mem _ (ih _ c hc)
      · rcases List.mem_cons.mp hc with h | h
        · subst h; simp_all
        · exact List.mem_cons_of_mem _ (ih _ c h)
    · rcases List.mem_cons.mp hc with h | h
      · subst h; exact List.mem_cons_self _ _
      · exact List.mem_cons_of_mem _ (ih _ c h)

/-- After the scan no two neighbours are both dashes, and inside a run the
output does not start with a dash. -/
theorem collapseDashes_chain (b : Bool) (cs : List Char) :
    List.Chain' (fun x y : Char => ¬ (x = '-' ∧ y = '-')) (collapseDashes b cs) ∧
    (b = true → ∀ h ∈ (collapseDashes b cs).head?, h ≠ '-') := by
  induction cs generalizing b with
  | nil => simp [collapseDashes]
  | cons a rest ih =>
    by_cases ha : a = '-'
    · subst ha
      cases b with
      | true =>
        simp only [collapseDashes, if_true]
        exact ⟨(ih true).1, fun _ => (ih true).2 rfl⟩
      | false =>
        simp only [collapseDashes, if_true, Bool.false_eq_true, if_false, List.chain'_cons']
        refine ⟨⟨?_, (ih true).1⟩, by simp⟩
        intro y hy hxy
        exact (ih true).2 rfl y hy hxy.2
    · rw [show collapseDashes b (a :: rest) = a :: collapseDashes false rest from by
        simp [collapseDashes, ha], List.chain'_cons']
      refine ⟨⟨fun y _ hxy => ha hxy.1, (ih false).1⟩, fun _ h hh => ?_⟩
      simp only [List.head?_cons, Option.mem_def, Option.some.injEq] at hh
      exact hh ▸ ha

theorem collapseDashes_fixed (b : Bool) (cs : List Char)
    (hc : List.Chain' (fun x y : Char => ¬ (x = '-' ∧ y = '-')) cs)
    (hb : b = true → ∀ h ∈ cs.head?, h ≠ '-') : collapseDashes b cs = cs := by
  induction cs generalizing b with
  | nil => rfl
  | cons a rest ih =>
    rw [List.chain'_cons'] at hc
    by_cases ha : a = '-'
    · subst ha
      cases b with
      | true => exact absurd rfl (hb rfl _ rfl)
      | false =>
        simp only [collapseDashes, if_true, Bool.false_eq_true, if_false]
        exact congrArg _ (ih true hc.2 (fun _ y hy h => hc.1 y hy ⟨rfl, h⟩))
    · simp only [collapseDashes, ha, if_false]
      exact congrArg _ (ih false hc.2 (by simp))

theorem collapseDashes_filter (p : Char → Bool) (hp : p '-' = false) (b : Bool)
    (cs : List Char) : (collapseDashes b cs).filter p = cs.filter p := by
  induction cs generalizing b with
  | nil => rfl
  | cons a rest ih =>
    by_cases ha : a = '-'
    · subst ha
      cases b <;> simp [collapseDashes, List.filter_cons, hp, ih]
    · simp [collapseDashes, ha, List.filter_cons, ih]

theorem replaceDisallowed_filter (p : Char → Bool) (hp : p '-' = false)
    (hpa : ∀ c, p c = true → allowedChar c = true) (cs : List Char) :
    (replaceDisallowed cs).filter p = cs.filter p := by
  induction cs with
  | nil => rfl
  | cons a rest ih =>
    have ih' : (List.map (fun c => if allowedChar c = true then c else '-') rest).filter p =
        rest.filter p := ih
    by_cases h : allowedChar a = true
    · simp [replaceDisallowed, List.filter_cons, h, ih']
    · have hpa' : p a = false := by
        cases hq : p a with
        | false => rfl
        | true => exact absurd (hpa a hq) h
      simp [replaceDisallowed, List.filter_cons, h, hp, hpa', ih']

theorem collapseDashes_ne_nil (cs : List Char) (h : cs ≠ []) :
    collapseDashes false cs ≠ [] := by
  cases cs with
  | nil => exact absurd rfl h
  | cons a rest =>
    by_cases ha : a = '-' <;> simp [collapseDashes, ha]

theorem string_eq_empty_iff (s : String) : s = "" ↔ s.data = [] := by
  constructor
  · rintro rfl; rfl
  · intro h; cases s; simp only at h; subst h; rfl

/-- The characters the sanitiser starts from are never none: a missing or
empty `siteName` is replaced by the default. -/
theorem packagejson_name_data (siteName : Option String) :
    ∃ base : String, base.data ≠ [] ∧
      (siteName = none ∨ siteName = some "" → base = "replace me") ∧
      (∀ s, siteName = some s → s ≠ "" → base = s) ∧
      (writing.packagejson.name siteName).data =
        collapseDashes false (replaceDisallowed base.data) := by
  cases siteName with
  | none => exact ⟨"replace me", by decide, fun _ => rfl, by simp, rfl⟩
  | some s =>
    by_cases hs : s = ""
    · subst hs
      exact ⟨"replace me", by decide, fun _ => rfl, by simp, rfl⟩
    · refine ⟨s, fun h => hs ((string_eq_empty_iff s).mpr h), ?_, fun t ht _ => ?_, ?_⟩
      · rintro (h | h)
        · cases h
        · exact absurd (Option.some.inj h) hs
      · exact (Option.some.inj ht)
      · simp [writing.packagejson.name, hs]

/-- C10. The package name computed from any `siteName` is a sanitised name:
every character is an ASCII letter, a digit, `_` or `-`; no two neighbouring
characters are both `-`; the letters, digits and `_` of a non-empty
`siteName` are exactly the letters, digits and `_` of the result, in the same
order; sanitising the result again returns it unchanged; and a missing or
empty `siteName` gives `replace-me`. -/
theorem packagejson_name_sanitised (siteName : Option String) :
    (∀ c ∈ (writing.packagejson.name siteName).data,
      c.isAlphanum = true ∨ c = '_' ∨ c = '-') ∧
    List.Chain' (fun x y : Char => ¬ (x = '-' ∧ y = '-'))
      (writing.packagejson.name siteName).data ∧
    (∀ s : String, (writing.packagejson.name (some s)).data.filter
        (fun c => c.isAlphanum || c == '_') =
      if s = "" then "replaceme".data else s.data.filter (fun c => c.isAlphanum || c == '_')) ∧
    writing.packagejson.name (some (writing.packagejson.name siteName)) =
      writing.packagejson.name siteName ∧
    writing.packagejson.name none = "replace-me" ∧
    writing.packagejson.name (some "") = "replace-me" := by
  obtain ⟨base, hne, _, _, hdata⟩ := packagejson_name_data siteName
  have hall : ∀ c ∈ (writing.packagejson.name siteName).data, allowedChar c = true := by
    intro c hc
    rw [hdata] at hc
    exact replaceDisallowed_allowed _ c (collapseDashes_subset _ _ c hc)
  have hchain : List.Chain' (fun x y : Char => ¬ (x = '-' ∧ y = '-'))
      (writing.packagejson.name siteName).data := by
    rw [hdata]
    exact (collapseDashes_chain false _).1
  refine ⟨?_, hchain, ?_, ?_, by decide, by decide⟩
  · intro c hc
    have h := hall c hc
    rw [allowedChar_eq] at h
    simpa [or_assoc] using h
  · intro s
    obtain ⟨b, _, hdef, hs, hd⟩ := packagejson_name_data (some s)
    have hkeep : (fun c : Char => c.isAlphanum || c == '_') '-' = false := by decide
    have hka : ∀ c : Char, (fun c : Char => c.isAlphanum || c == '_') c = true →
        allowedChar c = true := by
      intro c hc
      rw [allowedChar_eq]
      simp only at hc
      rw [hc]
      rfl
    rw [hd, collapseDashes_filter _ hkeep, replaceDisallowed_filter _ hkeep hka]
    by_cases h : s = ""
    · rw [hdef (Or.inr (by rw [h])), if_pos h]
      decide
    · rw [hs s rfl h, if_neg h]
  · have hnonempty : writing.packagejson.name siteName ≠ "" := by
      intro h
      have h2 := (string_eq_empty_iff _).mp h
      rw [hdata] at h2
      refine collapseDashes_ne_nil _ ?_ h2
      simpa [replaceDisallowed] using hne
    obtain ⟨b, _, _, hs, hd⟩ := packagejson_name_data (some (writing.packagejson.name siteName))
    have hb := hs _ rfl hnonempty
    rw [hb, replaceDisallowed_of_allowed _ hall,
      collapseDashes_fixed false _ hchain (by simp)] at hd
    generalize writing.packagejson.name (some (writing.packagejson.name siteName)) = r at hd
    generalize writing.packagejson.name siteName = t at hd
    cases r; cases t
    simp only at hd
    rw [hd]

/-! ## The `configuring` stage -/

theorem handleCheck_exitCode (s : Gen) (e : CheckEvent) :
    (handleCheck s e).exitCode = s.exitCode := by
  cases e with
  | passed w d r => simp only [handleCheck]; split <;> rfl
  | failed w d err => rfl

theorem handleCheck_doneCalls (s : Gen) (e : CheckEvent) :
    (handleCheck s e).doneCalls = s.doneCalls := by
  cases e with
  | passed w d r => simp only [handleCheck]; split <;> rfl
  | failed w d err => rfl

theorem handleCheck_messages (s : Gen) (e : CheckEvent) :
    (handleCheck s e).messages = s.messages ++ e.message?.toList := by
  cases e with
  | passed w d r =>
    simp only [handleCheck, CheckEvent.message?, Option.toList, List.append_nil]
    split <;> rfl
  | failed w d err => rfl

theorem handleCheck_verbose (s : Gen) (e : CheckEvent) :
    (handleCheck s e).verbose = s.verbose := by
  cases e with
  | passed w d r => simp only [handleCheck]; split <;> rfl
  | failed w d err => rfl

theorem handleChecks_exitCode (s : Gen) (evs : List CheckEvent) :
    (handleChecks s evs).exitCode = s.exitCode := by
  induction evs generalizing s with
  | nil => rfl
  | cons e rest ih =>
    simp only [handleChecks, List.foldl_cons] at ih ⊢
    rw [ih, handleCheck_exitCode]

theorem handleChecks_doneCalls (s : Gen) (evs : List CheckEvent) :
    (handleChecks s evs).doneCalls = s.doneCalls := by
  induction evs generalizing s with
  | nil => rfl
  | cons e rest ih =>
    simp only [handleChecks, List.foldl_cons] at ih ⊢
    rw [ih, handleCheck_doneCalls]

theorem handleChecks_verbose (s : Gen) (evs : List CheckEvent) :
    (handleChecks s evs).verbose = s.verbose := by
  induction evs generalizing s with
  | nil => rfl
  | cons e rest ih =>
    simp only [handleChecks, List.foldl_cons] at ih ⊢
    rw [ih, handleCheck_verbose]

/-- One message per failed event, in arrival order. -/
theorem handleChecks_messages (s : Gen) (evs : List CheckEvent) :
    (handleChecks s evs).messages = s.messages ++ evs.filterMap CheckEvent.message? := by
  induction evs generalizing s with
  | nil => simp [handleChecks]
  | cons e rest ih =>
    simp only [handleChecks, List.foldl_cons] at ih ⊢
    rw [ih, handleCheck_messages]
    cases h : e.message? <;> simp [List.filterMap_cons, h]

theorem length_filterMap_message (evs : List CheckEvent) :
    (evs.filterMap CheckEvent.message?).length = evs.countP CheckEvent.isFailed := by
  induction evs with
  | nil => rfl
  | cons e rest ih =>
    cases e <;> simp [List.filterMap_cons, CheckEvent.message?, CheckEvent.isFailed, ih]

/-- The signals of a checking stage that delivers its check events and then
`done`. -/
theorem handleSignals_checks_then_done (s : Gen) (evs : List CheckEvent) :
    handleSignals s (evs.map Signal.check ++ [Signal.done]) =
      { handleChecks s evs with doneCalls := (handleChecks s evs).doneCalls + 1 } := by
  induction evs generalizing s with
  | nil => rfl
  | cons e rest ih =>
    simp only [handleSignals, handleChecks, List.map_cons, List.cons_append,
      List.foldl_cons] at ih ⊢
    exact ih (handleCheck s e)

/-- What a signal does to the outcome of a run does not depend on
presentation. -/
theorem handleSignal_outcome (a b : Gen) (sig : Signal) (h : a.outcome = b.outcome) :
    (handleSignal a sig).outcome = (handleSignal b sig).outcome := by
  simp only [Gen.outcome, Prod.mk.injEq] at h
  obtain ⟨h1, h2, h3, h4, h5, h6⟩ := h
  cases sig with
  | done => simp [handleSignal, Gen.outcome, h1, h2, h3, h4, h5, h6]
  | check e =>
    cases e with
    | passed w d r =>
      simp only [handleSignal, handleCheck]
      split <;> split <;> simp [Gen.outcome, h1, h2, h3, h4, h5, h6]
    | failed w d err =>
      simp [handleSignal, handleCheck, Gen.outcome, h1, h2, h3, h4, h5, h6]

theorem handleSignals_outcome (a b : Gen) (sigs : List Signal) (h : a.outcome = b.outcome) :
    (handleSignals a sigs).outcome = (handleSignals b sigs).outcome := by
  induction sigs generalizing a b with
  | nil => exact h
  | cons sig rest ih =>
    simp only [handleSignals, List.foldl_cons] at ih ⊢
    exact ih _ _ (handleSignal_outcome a b sig h)

/-- When the archive was fetched and extracted, `configuring` hands the
signals to the handlers in a state that differs from the initial one in
presentation and call counts only. -/
theorem configuring_fetched (s : Gen) (url : String) (ver : Release) (chunks : Nat)
    (sigs : List Signal) :
    ∃ pre : Gen, configuring s (Download.fetched url ver chunks none) sigs =
        handleSignals pre sigs ∧
      pre.checks = s.checks ∧ pre.messages = s.messages ∧ pre.exitCode = s.exitCode ∧
      pre.doneCalls = s.doneCalls ∧ pre.downloads = s.downloads + 1 ∧
      pre.checkAllCalls = s.checkAllCalls + 1 ∧ pre.verbose = s.verbose ∧
      pre.quiet = s.quiet := by
  refine ⟨_, rfl, ?_, ?_, ?_, ?_, ?_, ?_, ?_, ?_⟩ <;>
    (simp only [Gen.logs]; split_ifs <;> rfl)

theorem handleCheck_counts (s : Gen) (e : CheckEvent) :
    (handleCheck s e).downloads = s.downloads ∧
    (handleCheck s e).checkAllCalls = s.checkAllCalls := by
  cases e with
  | passed w d r => simp only [handleCheck]; split <;> exact ⟨rfl, rfl⟩
  | failed w d err => exact ⟨rfl, rfl⟩

theorem handleChecks_counts (s : Gen) (evs : List CheckEvent) :
    (handleChecks s evs).downloads = s.downloads ∧
    (handleChecks s evs).checkAllCalls = s.checkAllCalls := by
  induction evs generalizing s with
  | nil => exact ⟨rfl, rfl⟩
  | cons e rest ih =>
    simp only [handleChecks, List.foldl_cons] at ih ⊢
    rw [(ih _).1, (ih _).2]
    exact handleCheck_counts s e

theorem handleSignal_observer (s : Gen) (sig : Signal) :
    (handleSignal s sig).observer = s.observer := by
  cases sig with
  | done => rfl
  | check e =>
    cases e with
    | passed w d r => simp only [handleSignal, handleCheck]; split <;> rfl
    | failed w d err => rfl

theorem handleSignals_observer (s : Gen) (sigs : List Signal) :
    (handleSignals s sigs).observer = s.observer := by
  induction sigs generalizing s with
  | nil => rfl
  | cons sig rest ih =>
    simp only [handleSignals, List.foldl_cons] at ih ⊢
    rw [ih, handleSignal_observer]

/-- C4. A failing check is not fatal. No check event makes the process exit or
calls the completion callback; the `failed` handler stores the outcome,
pushes the message and logs it, and changes nothing else. When the archive
was fetched and extracted, any list of check events followed by `done` is
handled to the end: the process has not exited, the completion callback was
called once, the report is the one the handlers build from all the events,
every event reads under its name the entry of an event of that name, and
every failed event has left its message.
With git passed (data `{version: "2.40"}`), npm passed and bower failed
(`not found`) the outcome of the run (report, messages, exit code, calls of
the completion callback, calls of `download`, calls of `deps.checkAll`) holds
the three entries, the one message, no exit and one completion. -/
theorem failing_check_is_not_fatal :
    (∀ (s : Gen) (e : CheckEvent),
      (handleCheck s e).exitCode = s.exitCode ∧ (handleCheck s e).doneCalls = s.doneCalls) ∧
    (∀ (s : Gen) (what : String) (data : JSVal) (err : ErrorInfo),
      handleCheck s (CheckEvent.failed what data err) =
        { s with checks := Checks.set s.checks what { data := data, error := some err }
                 messages := s.messages ++ [err.message]
                 log := s.log ++ [LogCall.error err.message] }) ∧
    (∀ (quiet : Bool) (url : String) (ver : Release) (chunks : Nat) (evs : List CheckEvent),
      (configuring (constructor quiet) (Download.fetched url ver chunks none)
          (evs.map Signal.check ++ [Signal.done])).exitCode = none ∧
      (configuring (constructor quiet) (Download.fetched url ver chunks none)
          (evs.map Signal.check ++ [Signal.done])).doneCalls = 1 ∧
      (configuring (constructor quiet) (Download.fetched url ver chunks none)
          (evs.map Signal.check ++ [Signal.done])).checks =
        (handleChecks (constructor quiet) evs).checks ∧
      (configuring (constructor quiet) (Download.fetched url ver chunks none)
          (evs.map Signal.check ++ [Signal.done])).messages =
        evs.filterMap CheckEvent.message? ∧
      ∀ e ∈ evs, ∃ e' ∈ evs, e'.what = e.what ∧
        Checks.get (configuring (constructor quiet)
          (Download.fetched url ver chunks none)
          (evs.map Signal.check ++ [Signal.done])).checks e.what =
          PropValue.entry e'.entry) ∧
    (∀ (quiet : Bool) (url : String) (ver : Release) (chunks : Nat),
      (configuring (constructor quiet) (Download.fetched url ver chunks none)
          [Signal.check (CheckEvent.passed "git" (JSVal.obj [("version", "2.40")])
              JSVal.undefined),
           Signal.check (CheckEvent.passed "npm" JSVal.undefined JSVal.undefined),
           Signal.check (CheckEvent.failed "bower" JSVal.undefined ⟨JSVal.str "not found"⟩),
           Signal.done]).outcome =
        ({ own := [("git", { data := JSVal.obj [("version", "2.40")], error := none }),
                   ("npm", { data := JSVal.undefined, error := none }),
                   ("bower", { data := JSVal.undefined,
                               error := some ⟨JSVal.str "not found"⟩ })],
           proto := none },
         [JSVal.str "not found"], none, 1, 1, 1)) := by
  have key : ∀ (quiet : Bool) (url : String) (ver : Release) (chunks : Nat)
      (evs : List CheckEvent),
      (configuring (constructor quiet) (Download.fetched url ver chunks none)
          (evs.map Signal.check ++ [Signal.done])).outcome =
        ((handleChecks (constructor quiet) evs).checks, evs.filterMap CheckEvent.message?,
          none, 1, 1, 1) := by
    intro quiet url ver chunks evs
    obtain ⟨pre, hrun, h1, h2, h3, h4, h5, h6, _, _⟩ :=
      configuring_fetched (constructor quiet) url ver chunks
        (evs.map Signal.check ++ [Signal.done])
    rw [hrun, handleSignals_checks_then_done]
    simp only [Gen.outcome, handleChecks_doneCalls, handleChecks_exitCode,
      handleChecks_messages, handleChecks_checks, (handleChecks_counts pre evs).1,
      (handleChecks_counts pre evs).2, h1, h2, h3, h4, h5, h6]
    rfl
  refine ⟨fun s e => ⟨handleCheck_exitCode s e, handleCheck_doneCalls s e⟩,
    fun _ _ _ _ => rfl, ?_, ?_⟩
  · intro quiet url ver chunks evs
    have h := key quiet url ver chunks evs
    simp only [Gen.outcome, Prod.mk.injEq] at h
    obtain ⟨hc, hm, he, hd, _, _⟩ := h
    refine ⟨he, hd, hc, hm, ?_⟩
    intro e hmem
    obtain ⟨e', he', hw, hs⟩ := foldl_set_stored_exists evs (constructor quiet).checks e hmem
    refine ⟨e', he', hw, ?_⟩
    rw [hc, handleChecks_checks]
    exact Checks.stored_get hs
  · intro quiet url ver chunks
    have h := key quiet url ver chunks
      [CheckEvent.passed "git" (JSVal.obj [("version", "2.40")]) JSVal.undefined,
       CheckEvent.passed "npm" JSVal.undefined JSVal.undefined,
       CheckEvent.failed "bower" JSVal.undefined ⟨JSVal.str "not found"⟩]
    rw [handleChecks_checks] at h
    exact h.trans (by cases quiet <;> decide)

/-- C5. A fetch or extract failure is fatal. When the download callback
receives an error, or the callback of `downloader.run` does, `configuring`
logs that error and calls `process.exit(1)`; `deps.checkAll` is not called,
`this.checks` and `this.messages` are still empty, the completion callback
is not called whatever the emitter would have delivered, and `download` was
called once. -/
theorem fetch_or_extract_failure_is_fatal (quiet : Bool) (err : ErrorInfo)
    (sigs : List Signal) :
    ((configuring (constructor quiet) (Download.failed err) sigs).exitCode = some 1 ∧
      (configuring (constructor quiet) (Download.failed err) sigs).log.getLast? =
        some (LogCall.errorObj err) ∧
      (configuring (constructor quiet) (Download.failed err) sigs).checkAllCalls = 0 ∧
      (configuring (constructor quiet) (Download.failed err) sigs).checks = Checks.empty ∧
      (configuring (constructor quiet) (Download.failed err) sigs).messages = [] ∧
      (configuring (constructor quiet) (Download.failed err) sigs).doneCalls = 0 ∧
      (configuring (constructor quiet) (Download.failed err) sigs).downloads = 1) ∧
    ∀ (url : String) (ver : Release) (chunks : Nat),
      (configuring (constructor quiet) (Download.fetched url ver chunks (some err))
          sigs).exitCode = some 1 ∧
      (∃ before, (configuring (constructor quiet) (Download.fetched url ver chunks (some err))
          sigs).log = before ++ [LogCall.write none, LogCall.errorObj err, LogCall.write none]) ∧
      (configuring (constructor quiet) (Download.fetched url ver chunks (some err))
          sigs).checkAllCalls = 0 ∧
      (configuring (constructor quiet) (Download.fetched url ver chunks (some err))
          sigs).checks = Checks.empty ∧
      (configuring (constructor quiet) (Download.fetched url ver chunks (some err))
          sigs).messages = [] ∧
      (configuring (constructor quiet) (Download.fetched url ver chunks (some err))
          sigs).doneCalls = 0 ∧
      (configuring (constructor quiet) (Download.fetched url ver chunks (some err))
          sigs).downloads = 1 := by
  constructor
  · cases quiet <;> simp [configuring, constructor, Gen.logs]
  · intro url ver chunks
    cases quiet
    · refine ⟨rfl, ⟨_, rfl⟩, rfl, rfl, rfl, rfl, rfl⟩
    · refine ⟨rfl, ⟨_, rfl⟩, rfl, rfl, rfl, rfl, rfl⟩

/-- C7. The flag `quiet` only gates presentation. For every download result
and every list of signals, the run with `quiet = true` and the run with
`quiet = false` end with the same `this.checks`, the same `this.messages`,
the same exit code, the same number of calls of the completion callback, of
`download` and of `deps.checkAll`. The quiet run never attaches the progress
observer; the verbose run attaches it once the release was found. -/
theorem quiet_only_gates_presentation (dl : Download) (sigs : List Signal) :
    (configuring (constructor true) dl sigs).checks =
      (configuring (constructor false) dl sigs).checks ∧
    (configuring (constructor true) dl sigs).messages =
      (configuring (constructor false) dl sigs).messages ∧
    (configuring (constructor true) dl sigs).exitCode =
      (configuring (constructor false) dl sigs).exitCode ∧
    (configuring (constructor true) dl sigs).doneCalls =
      (configuring (constructor false) dl sigs).doneCalls ∧
    (configuring (constructor true) dl sigs).downloads =
      (configuring (constructor false) dl sigs).downloads ∧
    (configuring (constructor true) dl sigs).checkAllCalls =
      (configuring (constructor false) dl sigs).checkAllCalls ∧
    (configuring (constructor true) dl sigs).observer = false ∧
    ∀ (url : String) (ver : Release) (chunks : Nat) (runErr : Option ErrorInfo),
      (configuring (constructor false) (Download.fetched url ver chunks runErr)
        sigs).observer = true := by
  have hout : (configuring (constructor true) dl sigs).outcome =
      (configuring (constructor false) dl sigs).outcome := by
    cases dl with
    | failed err => rfl
    | fetched url ver chunks runErr =>
      cases runErr with
      | some err => rfl
      | none =>
        obtain ⟨a, ha, a1, a2, a3, a4, a5, a6, _, _⟩ :=
          configuring_fetched (constructor true) url ver chunks sigs
        obtain ⟨b, hb, b1, b2, b3, b4, b5, b6, _, _⟩ :=
          configuring_fetched (constructor false) url ver chunks sigs
        rw [ha, hb]
        apply handleSignals_outcome
        simp only [Gen.outcome, a1, a2, a3, a4, a5, a6, b1, b2, b3, b4, b5, b6]
        rfl
  simp only [Gen.outcome, Prod.mk.injEq] at hout
  obtain ⟨h1, h2, h3, h4, h5, h6⟩ := hout
  refine ⟨h1, h2, h3, h4, h5, h6, ?_, ?_⟩
  · cases dl with
    | failed err => rfl
    | fetched url ver chunks runErr =>
      cases runErr with
      | some err => rfl
      | none =>
        simp only [configuring]
        rw [handleSignals_observer]
        rfl
  · intro url ver chunks runErr
    cases runErr with
    | some err => rfl
    | none =>
      simp only [configuring]
      rw [handleSignals_observer]
      rfl

/-- C8. After any list of check events handled from the freshly constructed
generator, `this.messages` holds exactly the messages of the failed events, in
arrival order, so its length is the number of failed events; `end` then adds
to the log the success line when no check failed (and only when verbose), and
otherwise the error header followed by what its loop prints. -/
theorem messages_one_per_failed_event (quiet : Bool) (evs : List CheckEvent) :
    (handleChecks (constructor quiet) evs).messages = evs.filterMap CheckEvent.message? ∧
    (handleChecks (constructor quiet) evs).messages.length =
      evs.countP CheckEvent.isFailed ∧
    (end_ (handleChecks (constructor quiet) evs)).log =
      (handleChecks (constructor quiet) evs).log ++
        (if evs.countP CheckEvent.isFailed = 0 then
          (if quiet = true then []
           else [LogCall.write none, LogCall.ok "You are all set now. Happy coding!"])
         else
          [LogCall.write none,
           LogCall.error (JSVal.str "There were some errors during the process:"),
           LogCall.write none] ++
            endLoop (handleChecks (constructor quiet) evs).messages 0) := by
  have hm : (handleChecks (constructor quiet) evs).messages =
      evs.filterMap CheckEvent.message? := by
    rw [handleChecks_messages]; rfl
  have hl : (handleChecks (constructor quiet) evs).messages.length =
      evs.countP CheckEvent.isFailed := by
    rw [hm, length_filterMap_message]
  have hv : (handleChecks (constructor quiet) evs).verbose = !quiet := by
    rw [handleChecks_verbose]; rfl
  refine ⟨hm, hl, ?_⟩
  simp only [end_, hl, hv, Gen.logs]
  by_cases h0 : evs.countP CheckEvent.isFailed = 0
  · cases quiet <;> simp [h0]
  · simp [h0]

/-- With only truthy messages the loop of `end` prints one numbered line per
message, in order. -/
theorem endLoop_of_truthy (ms : List JSVal) (i : Nat)
    (h : ∀ m ∈ ms, m.truthy = true) :
    endLoop ms i = (ms.enumFrom i).map
      (fun p => LogCall.write (some (toString (p.1 + 1) ++ " " ++ p.2.toStr))) := by
  induction ms generalizing i with
  | nil => rfl
  | cons m rest ih =>
    simp only [endLoop, h m (List.mem_cons_self _ _), if_true, List.enumFrom_cons,
      List.map_cons]
    exact congrArg _ (ih (i + 1) (fun x hx => h x (List.mem_cons_of_mem _ hx)))

/-- C6, the code at a failing input. After one failed check whose error has an
empty message, `end` prints the error header and then no numbered line; after
a failed check without a message followed by a failed check with the message
`not found`, it prints no numbered line either. -/
theorem end_prints_no_line_for_falsy_message :
    (handleChecks (constructor true)
        [CheckEvent.failed "bower" JSVal.undefined ⟨JSVal.str ""⟩]).messages.length = 1 ∧
    (end_ (handleChecks (constructor true)
        [CheckEvent.failed "bower" JSVal.undefined ⟨JSVal.str ""⟩])).log =
      [LogCall.error (JSVal.str ""),
       LogCall.write none,
       LogCall.error (JSVal.str "There were some errors during the process:"),
       LogCall.write none] ∧
    (end_ (handleChecks (constructor true)
        [CheckEvent.failed "git" JSVal.undefined ⟨JSVal.undefined⟩,
         CheckEvent.failed "bower" JSVal.undefined ⟨JSVal.str "not found"⟩])).log =
      [LogCall.error JSVal.undefined,
       LogCall.error (JSVal.str "not found"),
       LogCall.write none,
       LogCall.error (JSVal.str "There were some errors during the process:"),
       LogCall.write none] := by
  decide

/-! ## The git steps -/

/-- Without an entry under `git`, `writing.github` raises for the hosting
choice `github`. -/
theorem github_step_raises_of_no_git_entry (isGitHub : String → Bool) (s : Gen) (p : Prompts)
    (stdout : String) (hp : p.hostingChoice = "github")
    (hg : Checks.get s.checks "git" = PropValue.val JSVal.undefined) :
    (writing.github isGitHub s p stdout).raised.isSome = true := by
  simp [writing.github, hp, hg, PropValue.errorTruthy]

/-- The step `install.git` never raises. -/
theorem install_git_never_raises (s : Gen) (execErr : Option ErrorInfo) (stdout : String) :
    (install.git s execErr stdout).raised = none := by
  simp only [install.git]
  split
  · rfl
  · split <;> rfl

/-- C9, the code at a failing input. After a run in which only the `npm` check
reported, `this.checks` has no entry under `git`: with the hosting choice
`github` the step `writing.github` raises a TypeError when it reads
`this.checks.git.error`, after it has created `dist` and the deploy task,
while `install.git` on the same report returns without raising and without
running a command. -/
theorem writing_github_raises_without_git_entry :
    Checks.get (handleChecks (constructor false)
        [CheckEvent.passed "npm" JSVal.undefined JSVal.undefined]).checks "git" =
      PropValue.val JSVal.undefined ∧
    writing.github (fun _ => false)
        (handleChecks (constructor false)
          [CheckEvent.passed "npm" JSVal.undefined JSVal.undefined])
        { hostingChoice := "github", siteHost := none, githubBranch := "gh-pages",
          githubTarget := "user/site" } "" =
      { effects := [Effect.mkdir "dist",
                    Effect.template "deploy_github.js" "tasks/deploy.js"],
        raised := some "TypeError: Cannot read property \"error\" of undefined" } ∧
    install.git (handleChecks (constructor false)
        [CheckEvent.passed "npm" JSVal.undefined JSVal.undefined]) none "" =
      { effects := [], raised := none } := by
  decide

end GeneratorMobile
